import Mathlib

/-!
Shallow embedding of `redisco/containers.py` (the `Container.db` resolution,
the raw `List` container and the `TypedList` typed proxy), together with
proofs of the behavioural claims about them.

Conventions of the embedding:
* Python values flowing through the typed list are modelled by the universal
  type `PyVal`; Python `None` is `PyVal.none`, a redisco model instance is
  `PyVal.entity id payload` (its `id` attribute is the string `id`).
* The remote redis list stored at the container's key is modelled as a
  `List PyVal` that is passed to, and returned from, each operation.
* A Python call that may raise is modelled in `Except String`, the error
  carrying the exception message; `mapExcept` models Python's eager
  left-to-right evaluation of a comprehension / `map` over a list, where the
  first raised exception propagates and aborts the traversal.
-/

/-- Universal value type for the Python values handled by the containers.
`none` is Python `None` (also the redis nil reply); `entity` is a redisco
model instance carrying its `id` attribute and an opaque payload. -/
inductive PyVal where
  | none
  | str (s : String)
  | int (n : Int)
  | entity (id : String) (payload : Nat)
deriving DecidableEq, Repr, Inhabited

deriving instance DecidableEq for Except

/-- Python's eager left-to-right traversal of a list (`map` / list
comprehension in Python 2): every element is transformed in order and the
first raised exception propagates unmodified, aborting the traversal. -/
def mapExcept {α β ε : Type} (f : α → Except ε β) : List α → Except ε (List β)
  | [] => .ok []
  | a :: l =>
    match f a with
    | .error e => .error e
    | .ok b =>
      match mapExcept f l with
      | .error e => .error e
      | .ok bs => .ok (b :: bs)

/-- Embedding of the raw `List` container class of `containers.py` (named
`RList` because `List` is taken by Lean).  Each method issues the redis
command of the same name against the list stored at the container's key;
the stored list is the explicit `List PyVal` argument. -/
def RList.llen (xs : List PyVal) : Nat := xs.length

/-- Redis `LRANGE key start stop`: negative offsets count from the tail,
the `stop` bound is inclusive, and out-of-range offsets are clamped. -/
def RList.lrange (xs : List PyVal) (start stop : Int) : List PyVal :=
  let n : Int := RList.llen xs
  let s0 : Int := if start < 0 then n + start else start
  let e0 : Int := if stop < 0 then n + stop else stop
  let s : Int := max s0 0
  let e : Int := min e0 (n - 1)
  if s ≤ e then (xs.drop s.toNat).take (e - s + 1).toNat else []

/-- Redis `LINDEX key i`: negative indices count from the tail and an
out-of-range index yields the nil reply (Python `None`). -/
def RList.lindex (xs : List PyVal) (i : Int) : PyVal :=
  let n : Int := RList.llen xs
  let j : Int := if i < 0 then n + i else i
  if 0 ≤ j ∧ j < n then xs.getD j.toNat PyVal.none else PyVal.none

/-- Redis `RPUSH key v`: append at the tail. -/
def RList.rpush (xs : List PyVal) (v : PyVal) : List PyVal := xs ++ [v]

/-- `List.all`: `return self.lrange(0, -1)`. -/
def RList.all (xs : List PyVal) : List PyVal := RList.lrange xs 0 (-1)

/-- `List.__len__`: `return self.llen()`. -/
def RList.len (xs : List PyVal) : Nat := RList.llen xs

/-- A Python `slice` object `slice(start, stop, step)`;
`Option.none` is an omitted component. -/
structure PySlice where
  start : Option Int
  stop : Option Int
  step : Option Int
deriving DecidableEq, Repr

/-- CPython's `slice.indices(length)` (PySlice_Unpack followed by
PySlice_AdjustIndices): a zero step raises `ValueError`; omitted components
default according to the step's sign; given components are shifted by the
length when negative and clamped into range. -/
def sliceIndices (sl : PySlice) (length : Nat) : Except String (Int × Int × Int) :=
  let n : Int := length
  let stp : Int := match sl.step with | Option.none => 1 | some st => st
  if stp = 0 then .error "slice step cannot be zero"
  else
    let lo : Int := if stp < 0 then -1 else 0
    let hi : Int := if stp < 0 then n - 1 else n
    let adjust : Int → Int := fun v =>
      if v < 0 then (if v + n < 0 then lo else v + n)
      else (if v ≥ n then hi else v)
    let start : Int :=
      match sl.start with
      | Option.none => if stp < 0 then n - 1 else 0
      | some v => adjust v
    let stop : Int :=
      match sl.stop with
      | Option.none => if stp < 0 then -1 else n
      | some v => adjust v
    .ok (start, stop, stp)

/-- Integer branch of `List.__getitem__`: `return self.lindex(index)`. -/
def RList.getItemInt (xs : List PyVal) (index : Int) : PyVal :=
  RList.lindex xs index

/-- Slice branch of `List.__getitem__`:
`indices = index.indices(len(self)); return self.lrange(indices[0], indices[1])`.
The step component `indices[2]` is computed but never used. -/
def RList.getItemSlice (xs : List PyVal) (index : PySlice) : Except String (List PyVal) :=
  match sliceIndices index (RList.len xs) with
  | .error e => .error e
  | .ok idxs => .ok (RList.lrange xs idxs.1 idxs.2.1)

/-- `List.append`: `self.rpush(value)`. -/
def RList.append (xs : List PyVal) (v : PyVal) : List PyVal := RList.rpush xs v

/-- `List.extend`: `map(lambda i: self.rpush(i), iterable)` — one `rpush`
per element, in input order. -/
def RList.extend (xs : List PyVal) (vs : List PyVal) : List PyVal :=
  vs.foldl (fun acc v => RList.rpush acc v) xs

/-- A resolved element-type value for `TypedList` (the Python class object
bound to `self.klass`): whether it is a subclass of the redisco `Model`
base class, its manager's `objects.get_by_id` lookup (entity or `None`),
and its constructor call `klass(value, *args, **kwargs)`, which may raise. -/
structure KlassV where
  isModelSubclass : Bool
  getById : PyVal → Option PyVal
  call : PyVal → List PyVal → List (String × PyVal) → Except String PyVal

/-- The `target_type` argument of `TypedList.__init__`: either a concrete
class object or a symbolic name string to be resolved through the
domain-entity registry `get_model_from_key`. -/
inductive TargetType where
  | klass (k : KlassV)
  | name (s : String)

/-- `TypedList.value_type`: a string `target_type` is resolved through
`get_model_from_key`; a failed resolution raises
`ValueError("Unknown Redisco class %s" % t)`; a non-string is used as-is.
The registry (`models.base.get_model_from_key`, an external collaborator)
is passed as a function argument. -/
def value_type (get_model_from_key : String → Option KlassV) :
    TargetType → Except String KlassV
  | .klass t => .ok t
  | .name s =>
    match get_model_from_key s with
    | some k => .ok k
    | Option.none => .error ("Unknown Redisco class " ++ s)

/-- State of a `TypedList` proxy after construction: the resolved class,
the extra constructor arguments and the `_redisco_model` flag.  The wrapped
raw list is passed explicitly to each operation. -/
structure TypedList where
  klass : KlassV
  _klass_args : List PyVal
  _klass_kwargs : List (String × PyVal)
  _redisco_model : Bool

/-- `TypedList.__init__`: resolve `target_type` via `value_type` (raising
there on an unresolvable name, before anything else happens — the list is
never touched: this constructor does not even receive the stored list), and
set `_redisco_model = issubclass(self.klass, Model)`, modelled by the
class's `isModelSubclass` capability flag. -/
def TypedList.init (get_model_from_key : String → Option KlassV)
    (target : TargetType) (type_args : List PyVal)
    (type_kwargs : List (String × PyVal)) : Except String TypedList :=
  match value_type get_model_from_key target with
  | .error e => .error e
  | .ok k =>
    .ok { klass := k, _klass_args := type_args, _klass_kwargs := type_kwargs,
          _redisco_model := k.isModelSubclass }

/-- `TypedList.typecast_item`: in model mode return
`self.klass.objects.get_by_id(value)` — the entity, or `None` when the id
does not resolve; in plain mode call
`self.klass(value, *self._klass_args, **self._klass_kwargs)`. -/
def TypedList.typecast_item (tl : TypedList) (value : PyVal) : Except String PyVal :=
  if tl._redisco_model then
    .ok (match tl.klass.getById value with
         | some o => o
         | Option.none => PyVal.none)
  else
    tl.klass.call value tl._klass_args tl._klass_kwargs

/-- `TypedList.typecast_iter`: in model mode
`filter(lambda o: o is not None, [get_by_id(v) for v in values])` — resolve
every id and silently drop the unresolved ones; in plain mode the list
comprehension `[klass(v, *args, **kwargs) for v in values]`. -/
def TypedList.typecast_iter (tl : TypedList) (values : List PyVal) :
    Except String (List PyVal) :=
  if tl._redisco_model then
    .ok ((values.map tl.klass.getById).filterMap id)
  else
    mapExcept (fun v => tl.klass.call v tl._klass_args tl._klass_kwargs) values

/-- `TypedList.all`: `return self.typecast_iter(self.list.all())`. -/
def TypedList.all (tl : TypedList) (xs : List PyVal) : Except String (List PyVal) :=
  tl.typecast_iter (RList.all xs)

/-- `TypedList.__len__`: `return len(self.list)`. -/
def TypedList.len (tl : TypedList) (xs : List PyVal) : Nat :=
  RList.len xs

/-- Integer branch of `TypedList.__getitem__`:
`val = self.list[index]; return self.typecast_item(val)`. -/
def TypedList.getItemInt (tl : TypedList) (xs : List PyVal) (index : Int) :
    Except String PyVal :=
  tl.typecast_item (RList.getItemInt xs index)

/-- Slice branch of `TypedList.__getitem__`:
`val = self.list[index]; return self.typecast_iter(val)`. -/
def TypedList.getItemSlice (tl : TypedList) (xs : List PyVal) (index : PySlice) :
    Except String (List PyVal) :=
  match RList.getItemSlice xs index with
  | .error e => .error e
  | .ok vals => tl.typecast_iter vals

/-- `TypedList.typecast_stor`: in model mode store `value.id` (attribute
access, raising `AttributeError` on a non-entity); in plain mode store the
value unchanged. -/
def TypedList.typecast_stor (tl : TypedList) (value : PyVal) : Except String PyVal :=
  if tl._redisco_model then
    match value with
    | .entity i _ => .ok (.str i)
    | _ => .error "AttributeError: id"
  else
    .ok value

/-- `TypedList.append`: `self.list.append(self.typecast_stor(value))`. -/
def TypedList.append (tl : TypedList) (xs : List PyVal) (value : PyVal) :
    Except String (List PyVal) :=
  match tl.typecast_stor value with
  | .error e => .error e
  | .ok raw => .ok (RList.append xs raw)

/-- `TypedList.extend`:
`self.list.extend(map(lambda i: self.typecast_stor(i), iter))` — transform
every element eagerly, then hand the whole transformed list to the raw
container in one call. -/
def TypedList.extend (tl : TypedList) (xs : List PyVal) (values : List PyVal) :
    Except String (List PyVal) :=
  match mapExcept (fun v => tl.typecast_stor v) values with
  | .error e => .error e
  | .ok raws => .ok (RList.extend xs raws)

/-- The sequence produced by exhausting `TypedList.__iter__`:
`for i in xrange(len(self.list)): yield self[i]` — the index bound is the
length read once at the start, and each position is fetched and cast
independently through `self[i]`. -/
def TypedList.iter (tl : TypedList) (xs : List PyVal) : Except String (List PyVal) :=
  mapExcept (fun i => tl.getItemInt xs (Int.ofNat i)) (List.range (RList.len xs))

/-- State of a `Container` instance (generic in the connection/pipeline
handle type δ): the `_db` and `pipeline` constructor arguments and the
`db_cache` attribute, absent (or `None`) until the first fallback
resolution. -/
structure Container (δ : Type) where
  _db : Option δ
  key : String
  pipeline : Option δ
  db_cache : Option δ

/-- The `Container.db` property.  `connection` is the process-wide default
(`from redisco import connection`).  Modelled from the spec: the
`connection` global of the `redisco` package is not under `src/` (only the
importing call site is); per the spec it is the "process-wide default connection
resolved lazily on first use and cached per container instance".  Returns
the chosen handle together with the (possibly updated) container state. -/
def Container.db {δ : Type} (connection : δ) (c : Container δ) : δ × Container δ :=
  match c.pipeline with
  | some p => (p, c)
  | Option.none =>
    match c._db with
    | some d => (d, c)
    | Option.none =>
      match c.db_cache with
      | some cached => (cached, c)
      | Option.none => (connection, { c with db_cache := some connection })

/-- A plain casting class for examples: the identity cast (like `unicode`). -/
def idKlass : KlassV :=
  { isModelSubclass := false, getById := fun _ => Option.none,
    call := fun v _ _ => .ok v }

/-- A plain-mode `TypedList` proxy over `idKlass`. -/
def tlPlain : TypedList :=
  { klass := idKlass, _klass_args := [], _klass_kwargs := [],
    _redisco_model := false }

/-- Decimal parser over a character list (structural recursion, so that the
kernel can evaluate it inside `decide`). -/
def parseDigits (acc : Nat) : List Char → Option Nat
  | [] => some acc
  | c :: cs =>
    if '0' ≤ c ∧ c ≤ '9' then parseDigits (acc * 10 + (c.toNat - '0'.toNat)) cs
    else Option.none

/-- Decimal parser over a string; `Option.none` on a non-numeric string. -/
def strToNat (s : String) : Option Nat :=
  if s.data.isEmpty then Option.none else parseDigits 0 s.data

/-- An `int`-like casting class for examples: parses a digit string, raising
on anything else (the constructor exception of plain mode). -/
def intKlass : KlassV :=
  { isModelSubclass := false, getById := fun _ => Option.none,
    call := fun v _ _ =>
      match v with
      | .str s =>
        match strToNat s with
        | some n => .ok (.int n)
        | Option.none => .error ("invalid literal for int(): " ++ s)
      | .int n => .ok (.int n)
      | _ => .error "TypeError: int() argument" }

/-- A plain-mode `TypedList` proxy over `intKlass`. -/
def tlInt : TypedList :=
  { klass := intKlass, _klass_args := [], _klass_kwargs := [],
    _redisco_model := false }

/-- The spec's demo `get_by_id` registry: ids "a", "c" and "d" resolve to
entities; everything else (in particular "b") does not. -/
def demoRegistry : PyVal → Option PyVal := fun v =>
  match v with
  | .str "a" => some (.entity "a" 1)
  | .str "c" => some (.entity "c" 3)
  | .str "d" => some (.entity "d" 4)
  | _ => Option.none

/-- A redisco-model class whose manager looks ids up in `demoRegistry`. -/
def modelKlass : KlassV :=
  { isModelSubclass := true, getById := demoRegistry,
    call := fun v _ _ => .ok v }

/-- A domain-entity-mode `TypedList` proxy over `modelKlass`. -/
def tlModel : TypedList :=
  { klass := modelKlass, _klass_args := [], _klass_kwargs := [],
    _redisco_model := true }

/-- A symbolic-name registry for examples: only "Person" resolves. -/
def demoGmfk : String → Option KlassV := fun s =>
  if s = "Person" then some modelKlass else Option.none

/-- A container with no pipeline, no explicit connection and an empty
default-connection cache, over `Nat` connection handles. -/
def emptyContainer : Container Nat :=
  { _db := Option.none, key := "k", pipeline := Option.none,
    db_cache := Option.none }

theorem mapExcept_ok_of_forall {α β ε : Type} (f : α → Except ε β) (g : α → β) :
    ∀ l : List α, (∀ a ∈ l, f a = .ok (g a)) → mapExcept f l = .ok (l.map g)
  | [], _ => rfl
  | a :: l, h => by
    have ha : f a = .ok (g a) := h a (by simp)
    have hl : mapExcept f l = .ok (l.map g) :=
      mapExcept_ok_of_forall f g l (fun x hx => h x (by simp [hx]))
    simp [mapExcept, ha, hl]

theorem mapExcept_error_first {α β ε : Type} (f : α → Except ε β) :
    ∀ (ys : List α) (b : α) (zs : List α) (e : ε),
      (∀ a ∈ ys, ∃ w, f a = .ok w) → f b = .error e →
      mapExcept f (ys ++ b :: zs) = .error e
  | [], b, zs, e, _, hb => by simp [mapExcept, hb]
  | a :: ys, b, zs, e, h, hb => by
    obtain ⟨w, hw⟩ := h a (by simp)
    have ih := mapExcept_error_first f ys b zs e (fun x hx => h x (by simp [hx])) hb
    simp [mapExcept, hw, ih]

theorem mapExcept_congr {α β ε : Type} (f g : α → Except ε β) :
    ∀ l : List α, (∀ a ∈ l, f a = g a) → mapExcept f l = mapExcept g l
  | [], _ => rfl
  | a :: l, h => by
    have ih := mapExcept_congr f g l (fun x hx => h x (by simp [hx]))
    simp [mapExcept, h a (by simp), ih]

theorem mapExcept_append {α β ε : Type} (f : α → Except ε β) :
    ∀ l₁ l₂ : List α,
      mapExcept f (l₁ ++ l₂) =
        match mapExcept f l₁ with
        | .error e => .error e
        | .ok bs =>
          match mapExcept f l₂ with
          | .error e => .error e
          | .ok cs => Except.ok (bs ++ cs)
  | [], l₂ => by
    cases h : mapExcept f l₂ <;> simp [mapExcept, h]
  | a :: l₁, l₂ => by
    have ih := mapExcept_append f l₁ l₂
    cases ha : f a with
    | error e => simp [mapExcept, ha]
    | ok b =>
      cases h1 : mapExcept f l₁ with
      | error e => simp [mapExcept, ha, ih, h1]
      | ok bs =>
        cases h2 : mapExcept f l₂ with
        | error e => simp [mapExcept, ha, ih, h1, h2]
        | ok cs => simp [mapExcept, ha, ih, h1, h2]

theorem mapExcept_range_getD {β ε : Type} (F : PyVal → Except ε β) (d : PyVal) :
    ∀ xs : List PyVal,
      mapExcept (fun i => F (xs.getD i d)) (List.range xs.length) = mapExcept F xs := by
  intro xs
  induction xs using List.reverseRecOn with
  | nil => rfl
  | append_singleton ys a ih =>
    rw [List.length_append, List.length_singleton, List.range_succ]
    rw [mapExcept_append, mapExcept_append]
    have hcongr :
        mapExcept (fun i => F ((ys ++ [a]).getD i d)) (List.range ys.length)
          = mapExcept (fun i => F (ys.getD i d)) (List.range ys.length) := by
      apply mapExcept_congr
      intro i hi
      rw [List.mem_range] at hi
      rw [List.getD_append _ _ _ _ hi]
    have hlast : (ys ++ [a]).getD ys.length d = a := by
      rw [List.getD_append_right _ _ _ _ (le_refl ys.length)]
      simp
    rw [hcongr, ih]
    simp only [mapExcept, hlast]

theorem RList.all_eq (xs : List PyVal) : RList.all xs = xs := by
  cases xs with
  | nil => rfl
  | cons a l =>
    simp only [RList.all, RList.lrange, RList.llen, List.length_cons]
    norm_num

theorem RList.lrange_nat (xs : List PyVal) (a b : Nat) (hab : a ≤ b)
    (hb : b < xs.length) :
    RList.lrange xs a b = (xs.drop a).take (b - a + 1) := by
  simp only [RList.lrange, RList.llen]
  have h1 : ¬ ((a : Int) < 0) := by omega
  have h2 : ¬ ((b : Int) < 0) := by omega
  rw [if_neg h1, if_neg h2]
  have h3 : max (a : Int) 0 = a := by omega
  have h4 : min (b : Int) ((xs.length : Int) - 1) = b := by omega
  rw [h3, h4, if_pos (by omega : (a : Int) ≤ b)]
  have h5 : ((b : Int) - a + 1).toNat = b - a + 1 := by omega
  have h6 : ((a : Int)).toNat = a := by omega
  rw [h5, h6]

theorem RList.lindex_natCast (xs : List PyVal) (i : Nat) (h : i < xs.length) :
    RList.lindex xs (i : Int) = xs.getD i PyVal.none := by
  simp only [RList.lindex, RList.llen]
  have h1 : ¬ ((i : Int) < 0) := by omega
  rw [if_neg h1, if_pos (by omega)]
  norm_num

theorem RList.lindex_append_last (xs : List PyVal) (v : PyVal) :
    RList.lindex (xs ++ [v]) ((RList.llen (xs ++ [v]) : Int) - 1) = v := by
  have hidx : ((RList.llen (xs ++ [v]) : Int) - 1) = ((xs.length : Nat) : Int) := by
    simp only [RList.llen, List.length_append, List.length_singleton]
    omega
  rw [hidx, RList.lindex_natCast _ _ (by simp)]
  rw [List.getD_append_right _ _ _ _ (le_refl _)]
  simp

theorem RList.extend_eq (vs : List PyVal) : ∀ xs, RList.extend xs vs = xs ++ vs := by
  induction vs with
  | nil => intro xs; simp [RList.extend]
  | cons v vs ih =>
    intro xs
    have hstep : RList.extend xs (v :: vs) = RList.extend (xs ++ [v]) vs := rfl
    rw [hstep, ih]
    simp

theorem filterMap_id_map_all_some {α β : Type} (F : α → Option β) (d : β) :
    ∀ l : List α, (∀ v ∈ l, (F v).isSome) →
      (l.map F).filterMap id = l.map (fun v => (F v).getD d)
  | [], _ => rfl
  | a :: l, h => by
    have ih := filterMap_id_map_all_some F d l (fun x hx => h x (by simp [hx]))
    obtain ⟨w, hw⟩ := Option.isSome_iff_exists.mp (h a (by simp))
    simp [List.filterMap_cons, hw, ih]

/-- C1: in domain-entity mode, on a stored sequence in which exactly one
identifier (`b`) fails to resolve, `TypedList.all()` returns, without
raising, exactly the resolved entities of the surviving identifiers in
their stored order — one fewer than the stored count. -/
theorem typedlist_all_drops_unresolved (tl : TypedList)
    (htl : tl._redisco_model = true) (ys zs : List PyVal) (b : PyVal)
    (hy : ∀ v ∈ ys, (tl.klass.getById v).isSome)
    (hz : ∀ v ∈ zs, (tl.klass.getById v).isSome)
    (hb : tl.klass.getById b = Option.none) :
    TypedList.all tl (ys ++ b :: zs)
        = .ok ((ys ++ zs).map (fun v => (tl.klass.getById v).getD PyVal.none))
      ∧ ((ys ++ zs).map (fun v => (tl.klass.getById v).getD PyVal.none)).length
        = (ys ++ b :: zs).length - 1 := by
  constructor
  · simp only [TypedList.all, TypedList.typecast_iter, RList.all_eq, htl, if_true]
    rw [List.map_append, List.filterMap_append, List.map_cons, List.filterMap_cons]
    simp only [id_eq, hb]
    rw [filterMap_id_map_all_some _ PyVal.none ys hy,
        filterMap_id_map_all_some _ PyVal.none zs hz, List.map_append]
  · rw [List.length_map, List.length_append, List.length_append, List.length_cons]
    omega

/-- Witness for C1, the spec's own scenario: stored ids `["a","b","c"]`
with `"b"` unresolvable yield the two entities of `"a"` and `"c"`. -/
theorem typedlist_all_drops_unresolved_witness :
    tlModel.klass.getById (PyVal.str "b") = Option.none
    ∧ TypedList.all tlModel [PyVal.str "a", PyVal.str "b", PyVal.str "c"]
        = .ok ([PyVal.str "a", PyVal.str "c"].map
            (fun v => (tlModel.klass.getById v).getD PyVal.none)) := by
  refine ⟨by decide, ?_⟩
  exact (typedlist_all_drops_unresolved tlModel rfl [PyVal.str "a"] [PyVal.str "c"]
      (PyVal.str "b") (by decide) (by decide) (by decide)).1

/-- C2: in domain-entity mode, the indexed read at an in-bounds position
whose stored identifier does not resolve returns the registry's `None`
sentinel as-is: no exception and no element dropping. -/
theorem typedlist_getitem_sentinel (tl : TypedList)
    (htl : tl._redisco_model = true) (xs : List PyVal) (i : Int)
    (hlo : -(xs.length : Int) ≤ i) (hhi : i < (xs.length : Int))
    (hres : tl.klass.getById (RList.lindex xs i) = Option.none) :
    TypedList.getItemInt tl xs i = .ok PyVal.none := by
  simp only [TypedList.getItemInt, TypedList.typecast_item, RList.getItemInt,
    htl, if_true, hres]

/-- Witness for C2: index 1 of stored ids `["a","b","c"]` (the stale "b")
reads back as the `None` sentinel. -/
theorem typedlist_getitem_sentinel_witness :
    tlModel.klass.getById
        (RList.lindex [PyVal.str "a", PyVal.str "b", PyVal.str "c"] 1) = Option.none
    ∧ TypedList.getItemInt tlModel [PyVal.str "a", PyVal.str "b", PyVal.str "c"] 1
        = .ok PyVal.none := by
  refine ⟨by decide, ?_⟩
  exact typedlist_getitem_sentinel tlModel rfl _ 1 (by decide) (by decide) (by decide)

/-- C4: in plain mode `all()` casts every stored value in insertion order
through `klass(v, *type_args, **type_kwargs)`, and a constructor exception
propagates to the caller unmodified. -/
theorem typedlist_plain_all_casts (tl : TypedList)
    (htl : tl._redisco_model = false) (xs : List PyVal) :
    (∀ g : PyVal → PyVal,
      (∀ v ∈ xs, tl.klass.call v tl._klass_args tl._klass_kwargs = .ok (g v)) →
      TypedList.all tl xs = .ok (xs.map g))
    ∧ (∀ (ys : List PyVal) (b : PyVal) (zs : List PyVal) (e : String),
        xs = ys ++ b :: zs →
        (∀ v ∈ ys, ∃ w, tl.klass.call v tl._klass_args tl._klass_kwargs = .ok w) →
        tl.klass.call b tl._klass_args tl._klass_kwargs = .error e →
        TypedList.all tl xs = .error e) := by
  constructor
  · intro g hg
    simp only [TypedList.all, TypedList.typecast_iter, RList.all_eq, htl,
      Bool.false_eq_true, if_false]
    exact mapExcept_ok_of_forall _ g xs hg
  · intro ys b zs e hxs hys hb
    subst hxs
    simp only [TypedList.all, TypedList.typecast_iter, RList.all_eq, htl,
      Bool.false_eq_true, if_false]
    exact mapExcept_error_first _ ys b zs e hys hb

/-- Witness for C4: over `tlInt`, `["1","2"]` casts to `[1, 2]`, and a
non-numeric element makes `all()` raise the constructor's error verbatim. -/
theorem typedlist_plain_all_casts_witness :
    TypedList.all tlInt [PyVal.str "1", PyVal.str "2"]
        = .ok [PyVal.int 1, PyVal.int 2]
    ∧ TypedList.all tlInt [PyVal.str "1", PyVal.str "x"]
        = .error "invalid literal for int(): x" := by
  constructor
  · have h := (typedlist_plain_all_casts tlInt rfl [PyVal.str "1", PyVal.str "2"]).1
        (fun v => match v with
          | PyVal.str s => PyVal.int ((strToNat s).getD 0)
          | _ => PyVal.none)
        (by intro v hv
            simp only [List.mem_cons, List.not_mem_nil, or_false] at hv
            rcases hv with h | h <;> subst h <;> decide)
    rw [h]; decide
  · exact (typedlist_plain_all_casts tlInt rfl [PyVal.str "1", PyVal.str "x"]).2
      [PyVal.str "1"] (PyVal.str "x") [] _ rfl
      (by intro v hv
          simp only [List.mem_cons, List.not_mem_nil, or_false] at hv
          subst hv
          exact ⟨PyVal.int 1, by decide⟩)
      (by decide)

/-- C6: an unresolvable symbolic type name makes construction fail with the
unknown-type error; a resolvable name is resolved at construction, the
resolved class being fixed in the returned proxy state (the constructor
receives no list state at all, so no element is accessed, and no other
operation of the proxy consults the name registry again). -/
theorem typedlist_init_resolution (gmfk : String → Option KlassV) (s : String)
    (type_args : List PyVal) (type_kwargs : List (String × PyVal)) :
    (gmfk s = Option.none →
      TypedList.init gmfk (TargetType.name s) type_args type_kwargs
        = .error ("Unknown Redisco class " ++ s))
    ∧ (∀ k, gmfk s = some k →
      TypedList.init gmfk (TargetType.name s) type_args type_kwargs
        = .ok { klass := k, _klass_args := type_args,
                _klass_kwargs := type_kwargs,
                _redisco_model := k.isModelSubclass }) := by
  constructor
  · intro h
    simp [TypedList.init, value_type, h]
  · intro k h
    simp [TypedList.init, value_type, h]

/-- Witness for C6: "Ghost" does not resolve and fails construction;
"Person" resolves to `modelKlass` and construction succeeds. -/
theorem typedlist_init_resolution_witness :
    TypedList.init demoGmfk (TargetType.name "Ghost") [] []
        = .error "Unknown Redisco class Ghost"
    ∧ TypedList.init demoGmfk (TargetType.name "Person") [] []
        = .ok { klass := modelKlass, _klass_args := [], _klass_kwargs := [],
                _redisco_model := modelKlass.isModelSubclass } := by
  constructor
  · exact (typedlist_init_resolution demoGmfk "Ghost" [] []).1 rfl
  · exact (typedlist_init_resolution demoGmfk "Person" [] []).2 modelKlass rfl

/-- C7: `len(proxy)` always equals the raw container's `llen`, in every
mode; in domain-entity mode the materialized `all()` can only be shorter
(unresolvable identifiers are dropped from `all()` but still counted). -/
theorem typedlist_len_delegates (tl : TypedList) (xs : List PyVal) :
    TypedList.len tl xs = RList.llen xs
    ∧ (tl._redisco_model = true → ∀ l, TypedList.all tl xs = .ok l →
        l.length ≤ TypedList.len tl xs) := by
  refine ⟨rfl, ?_⟩
  intro htl l hall
  simp only [TypedList.all, TypedList.typecast_iter, RList.all_eq, htl, if_true,
    Except.ok.injEq] at hall
  subst hall
  calc ((xs.map tl.klass.getById).filterMap id).length
      ≤ (xs.map tl.klass.getById).length := List.length_filterMap_le id _
    _ = xs.length := List.length_map _ _
    _ = TypedList.len tl xs := rfl

/-- Witness for C7: three stored ids, one unresolvable: `len` is 3 while
`all()` has two entities. -/
theorem typedlist_len_delegates_witness :
    TypedList.len tlModel [PyVal.str "a", PyVal.str "b", PyVal.str "c"] = 3
    ∧ [PyVal.entity "a" 1, PyVal.entity "c" 3].length
        ≤ TypedList.len tlModel [PyVal.str "a", PyVal.str "b", PyVal.str "c"] := by
  refine ⟨rfl, ?_⟩
  exact (typedlist_len_delegates tlModel
      [PyVal.str "a", PyVal.str "b", PyVal.str "c"]).2 rfl _ (by decide)

/-- C8: `extend` applies the write transform to every element and forwards
the transformed elements in one bulk call to the raw container, which
appends them at the tail in input order. -/
theorem typedlist_extend_bulk (tl : TypedList) (xs vs : List PyVal)
    (g : PyVal → PyVal)
    (h : ∀ v ∈ vs, tl.typecast_stor v = .ok (g v)) :
    TypedList.extend tl xs vs = .ok (xs ++ vs.map g) := by
  simp only [TypedList.extend, mapExcept_ok_of_forall _ g vs h, RList.extend_eq]

/-- Witness for C8: extending a domain-entity list with two entities stores
their identifiers at the tail, in order. -/
theorem typedlist_extend_bulk_witness :
    TypedList.extend tlModel [PyVal.str "a"]
        [PyVal.entity "b" 2, PyVal.entity "c" 3]
      = .ok [PyVal.str "a", PyVal.str "b", PyVal.str "c"] := by
  have h := typedlist_extend_bulk tlModel [PyVal.str "a"]
      [PyVal.entity "b" 2, PyVal.entity "c" 3]
      (fun v => match v with | PyVal.entity i _ => PyVal.str i | _ => PyVal.none)
      (by intro v hv
          simp only [List.mem_cons, List.not_mem_nil, or_false] at hv
          rcases hv with h | h <;> subst h <;> rfl)
  rw [h]
  decide

/-- C9: the execution context is resolved with fixed precedence — pipeline,
then explicit connection, then the cached process-wide default; the default
is resolved lazily on first use, cached on the instance, and later calls
reuse the cached handle (even if the process-wide default changed). -/
theorem container_db_precedence {δ : Type} (connection connection2 : δ)
    (c : Container δ) :
    (∀ p, c.pipeline = some p → Container.db connection c = (p, c))
    ∧ (c.pipeline = Option.none → ∀ d, c._db = some d →
        Container.db connection c = (d, c))
    ∧ (c.pipeline = Option.none → c._db = Option.none →
        ∀ cc, c.db_cache = some cc → Container.db connection c = (cc, c))
    ∧ (c.pipeline = Option.none → c._db = Option.none → c.db_cache = Option.none →
        Container.db connection c
            = (connection, { c with db_cache := some connection })
        ∧ Container.db connection2 (Container.db connection c).2
            = (connection, (Container.db connection c).2)) := by
  refine ⟨?_, ?_, ?_, ?_⟩
  · intro p hp; simp [Container.db, hp]
  · intro hp d hd; simp [Container.db, hp, hd]
  · intro hp hd cc hc; simp [Container.db, hp, hd, hc]
  · intro hp hd hc
    refine ⟨by simp [Container.db, hp, hd, hc], ?_⟩
    simp [Container.db, hp, hd, hc]

/-- Witness for C9: with no pipeline, no explicit connection and an empty
cache, the first call resolves and caches the default 5; a later call with
a changed default 7 still returns the cached 5. -/
theorem container_db_precedence_witness :
    Container.db 5 emptyContainer
      = (5, { emptyContainer with db_cache := some 5 })
    ∧ Container.db 7 (Container.db 5 emptyContainer).2
      = (5, (Container.db 5 emptyContainer).2) := by
  have h := (container_db_precedence 5 7 emptyContainer).2.2.2 rfl rfl rfl
  exact ⟨h.1, h.2⟩

/-- Counterexample to C3: over the stored list `["b"]` in domain-entity
mode (the id "b" does not resolve), iterating the proxy yields the `None`
sentinel at that position while `all()` drops it, so the two sequences
differ. -/
theorem typedlist_iter_all_counterexample :
    TypedList.iter tlModel [PyVal.str "b"] ≠ TypedList.all tlModel [PyVal.str "b"]
    ∧ TypedList.iter tlModel [PyVal.str "b"] = .ok [PyVal.none]
    ∧ TypedList.all tlModel [PyVal.str "b"] = .ok [] := by decide

/-- C3 as amended: iterating the proxy yields the same sequence, in the
same order, as `all()` in plain mode always, and in domain-entity mode
whenever every stored identifier resolves; when some identifier fails to
resolve in domain-entity mode, iteration yields the `None` sentinel at that
position while `all()` drops it. -/
theorem typedlist_iter_eq_all_of_resolvable (tl : TypedList) (xs : List PyVal)
    (h : tl._redisco_model = false
         ∨ (tl._redisco_model = true ∧ ∀ v ∈ xs, (tl.klass.getById v).isSome)) :
    TypedList.iter tl xs = TypedList.all tl xs := by
  have hiter : TypedList.iter tl xs = mapExcept (fun v => tl.typecast_item v) xs := by
    unfold TypedList.iter RList.len RList.llen
    have hcongr :
        mapExcept (fun i => TypedList.getItemInt tl xs (Int.ofNat i))
            (List.range xs.length)
          = mapExcept (fun i => tl.typecast_item (xs.getD i PyVal.none))
              (List.range xs.length) := by
      apply mapExcept_congr
      intro i hi
      rw [List.mem_range] at hi
      simp only [TypedList.getItemInt, RList.getItemInt]
      rw [show Int.ofNat i = (i : Int) from rfl, RList.lindex_natCast xs i hi]
    rw [hcongr, mapExcept_range_getD]
  rw [hiter]
  rcases h with hplain | ⟨htl, hsome⟩
  · simp only [TypedList.all, TypedList.typecast_iter, RList.all_eq, hplain,
      Bool.false_eq_true, if_false]
    apply mapExcept_congr
    intro v hv
    simp [TypedList.typecast_item, hplain]
  · have hok : mapExcept (fun v => tl.typecast_item v) xs
        = .ok (xs.map (fun v => (tl.klass.getById v).getD PyVal.none)) := by
      apply mapExcept_ok_of_forall
      intro v hv
      simp only [TypedList.typecast_item, htl, if_true]
      cases hsv : tl.klass.getById v <;> simp [hsv]
    rw [hok]
    simp only [TypedList.all, TypedList.typecast_iter, RList.all_eq, htl, if_true]
    rw [filterMap_id_map_all_some _ PyVal.none xs hsome]

/-- Witness for C3 as amended: over stored ids `["a","c"]` (all resolve),
iteration and `all()` produce the same sequence. -/
theorem typedlist_iter_eq_all_of_resolvable_witness :
    (∀ v ∈ [PyVal.str "a", PyVal.str "c"], (tlModel.klass.getById v).isSome)
    ∧ TypedList.iter tlModel [PyVal.str "a", PyVal.str "c"]
        = TypedList.all tlModel [PyVal.str "a", PyVal.str "c"] := by
  refine ⟨by decide, ?_⟩
  exact typedlist_iter_eq_all_of_resolvable tlModel [PyVal.str "a", PyVal.str "c"]
    (Or.inr ⟨rfl, by decide⟩)

/-- C5: the append/read-back round trip.  In domain-entity mode, appending
an entity stores its identifier; if that identifier resolves back to an
entity with the same identifier, reading the last position returns that
entity.  In plain mode, if the cast maps the appended value to itself,
reading the last position returns an equal value. -/
theorem typedlist_append_roundtrip (tl : TypedList) (xs : List PyVal) :
    (∀ (i : String) (p p' : Nat), tl._redisco_model = true →
      tl.klass.getById (PyVal.str i) = some (PyVal.entity i p') →
      ∃ xs', TypedList.append tl xs (PyVal.entity i p) = .ok xs'
        ∧ TypedList.getItemInt tl xs' ((TypedList.len tl xs' : Int) - 1)
            = .ok (PyVal.entity i p'))
    ∧ (∀ e : PyVal, tl._redisco_model = false →
        tl.klass.call e tl._klass_args tl._klass_kwargs = .ok e →
        ∃ xs', TypedList.append tl xs e = .ok xs'
          ∧ TypedList.getItemInt tl xs' ((TypedList.len tl xs' : Int) - 1)
              = .ok e) := by
  constructor
  · intro i p p' htl hres
    refine ⟨xs ++ [PyVal.str i], ?_, ?_⟩
    · simp [TypedList.append, TypedList.typecast_stor, htl, RList.append, RList.rpush]
    · simp only [TypedList.getItemInt, RList.getItemInt, TypedList.len, RList.len]
      rw [RList.lindex_append_last]
      simp [TypedList.typecast_item, htl, hres]
  · intro e htl hcast
    refine ⟨xs ++ [e], ?_, ?_⟩
    · simp [TypedList.append, TypedList.typecast_stor, htl, RList.append, RList.rpush]
    · simp only [TypedList.getItemInt, RList.getItemInt, TypedList.len, RList.len]
      rw [RList.lindex_append_last]
      simp [TypedList.typecast_item, htl, hcast]

/-- Witness for C5: appending entity "a" (payload 5) to an empty
domain-entity list and reading back the last position yields the
registry's entity with the same identifier "a"; appending "v" to a plain
identity-cast list reads back equal. -/
theorem typedlist_append_roundtrip_witness :
    tlModel.klass.getById (PyVal.str "a") = some (PyVal.entity "a" 1)
    ∧ (∃ xs', TypedList.append tlModel [] (PyVal.entity "a" 5) = .ok xs'
        ∧ TypedList.getItemInt tlModel xs' ((TypedList.len tlModel xs' : Int) - 1)
            = .ok (PyVal.entity "a" 1))
    ∧ (∃ xs', TypedList.append tlPlain [] (PyVal.str "v") = .ok xs'
        ∧ TypedList.getItemInt tlPlain xs' ((TypedList.len tlPlain xs' : Int) - 1)
            = .ok (PyVal.str "v")) := by
  refine ⟨by decide, ?_, ?_⟩
  · exact (typedlist_append_roundtrip tlModel []).1 "a" 5 1 rfl (by decide)
  · exact (typedlist_append_roundtrip tlPlain []).2 (PyVal.str "v") rfl (by decide)

theorem sliceIndices_nat (a b n : Nat) (stp : Option Int)
    (ha : a < n) (hb : b < n) (hstp : stp ≠ some 0) :
    sliceIndices ⟨some (a : Int), some (b : Int), stp⟩ n
      = .ok ((a : Int), (b : Int), stp.getD 1) := by
  have h1 : ¬ ((a : Int) < 0) := by omega
  have h2 : ¬ ((a : Int) ≥ (n : Int)) := by omega
  have h3 : ¬ ((b : Int) < 0) := by omega
  have h4 : ¬ ((b : Int) ≥ (n : Int)) := by omega
  rcases stp with _ | st
  · simp only [sliceIndices]
    rw [if_neg (by norm_num : ¬ (1 : Int) = 0)]
    rw [if_neg h1, if_neg h2, if_neg h3, if_neg h4]
    rfl
  · have hst : ¬ (st = 0) := fun h => hstp (by rw [h])
    simp only [sliceIndices]
    rw [if_neg hst, if_neg h1, if_neg h2, if_neg h3, if_neg h4]
    rfl

/-- Counterexample to C10: the claim's "any step component of the slice is
ignored" fails for a zero step — `slice.indices` raises `ValueError` before
the range read, instead of returning the stop-inclusive range. -/
theorem list_slice_zero_step_counterexample :
    RList.getItemSlice [PyVal.str "x", PyVal.str "y"] ⟨some 0, some 1, some 0⟩
        = .error "slice step cannot be zero"
    ∧ RList.getItemSlice [PyVal.str "x", PyVal.str "y"] ⟨some 0, some 1, some 0⟩
        ≠ .ok [PyVal.str "x", PyVal.str "y"] := by decide

/-- C10 as amended: for a slice `a:b` with `0 ≤ a ≤ b < n`, the normalized
bounds are forwarded unchanged to the stop-inclusive `LRANGE`, so the read
returns the elements at positions `a..b` inclusive — `b - a + 1` elements,
one more than Python slice semantics, including the element at `b` — and
any nonzero step component is ignored (a zero step raises the
slice-normalization `ValueError`); `TypedList` slice reads apply the read
cast to exactly this inclusive range. -/
theorem list_slice_inclusive_stop (tl : TypedList) (xs : List PyVal)
    (a b : Nat) (stp : Option Int) (hab : a ≤ b) (hb : b < xs.length)
    (hstp : stp ≠ some 0) :
    RList.getItemSlice xs ⟨some (a : Int), some (b : Int), stp⟩
        = .ok ((xs.drop a).take (b - a + 1))
    ∧ ((xs.drop a).take (b - a + 1)).length = b - a + 1
    ∧ ((xs.drop a).take (b - a + 1)).getLast? = xs[b]?
    ∧ TypedList.getItemSlice tl xs ⟨some (a : Int), some (b : Int), stp⟩
        = TypedList.typecast_iter tl ((xs.drop a).take (b - a + 1)) := by
  have ha : a < xs.length := lt_of_le_of_lt hab hb
  have hsi := sliceIndices_nat a b xs.length stp ha hb hstp
  have hfirst : RList.getItemSlice xs ⟨some (a : Int), some (b : Int), stp⟩
      = .ok ((xs.drop a).take (b - a + 1)) := by
    simp only [RList.getItemSlice, RList.len, RList.llen, hsi]
    rw [RList.lrange_nat xs a b hab hb]
  have hlen : ((xs.drop a).take (b - a + 1)).length = b - a + 1 := by
    rw [List.length_take, List.length_drop]
    omega
  refine ⟨hfirst, hlen, ?_, ?_⟩
  · rw [List.getLast?_eq_getElem?, hlen]
    have hidx : b - a + 1 - 1 = b - a := rfl
    rw [hidx, List.getElem?_take, if_pos (by omega), List.getElem?_drop]
    congr 1
    omega
  · simp only [TypedList.getItemSlice, hfirst]

/-- Witness for C10 as amended: slicing `["x","y","z"]` with `0:1:5` (the
nonzero step 5 is ignored) returns positions 0 and 1 inclusive — one more
element than Python's `l[0:1]` — and the typed proxy casts that range. -/
theorem list_slice_inclusive_stop_witness :
    RList.getItemSlice [PyVal.str "x", PyVal.str "y", PyVal.str "z"]
        ⟨some ((0 : Nat) : Int), some ((1 : Nat) : Int), some 5⟩
      = .ok [PyVal.str "x", PyVal.str "y"]
    ∧ TypedList.getItemSlice tlPlain [PyVal.str "x", PyVal.str "y", PyVal.str "z"]
        ⟨some ((0 : Nat) : Int), some ((1 : Nat) : Int), some 5⟩
      = TypedList.typecast_iter tlPlain [PyVal.str "x", PyVal.str "y"] := by
  have h := list_slice_inclusive_stop tlPlain
      [PyVal.str "x", PyVal.str "y", PyVal.str "z"] 0 1 (some 5)
      (by omega) (by decide) (by decide)
  constructor
  · rw [h.1]
    decide
  · rw [h.2.2.2]
    decide
